import Mathlib

/-!
Verification of the fetal-monitoring core against its sources.

The embedding translates, sample for sample:
  * the alarm classifier of `src/components/HeartRateMonitor.tsx`
    (instantaneous thresholding, classification history, debounced status);
  * the rate estimator `calculateBPM` of the data-storage utility
    (peak detection, interval filtering, BPM averaging);
  * the `SignalProcessor` filter chain of `src/utils/signalNormalization.ts`
    (three biquad stages plus a 5-sample median stage).

Timestamps are integers (milliseconds, as produced by `Date.now()`); sample
values and rates are rationals standing for the JS numbers in the exact
arithmetic the algorithms perform on them.
-/

set_option maxRecDepth 400000

namespace FetalMonitor

/-- The classifier's three-valued status, `'normal' | 'warning' | 'critical'`. -/
inductive Status where
  | normal
  | warning
  | critical
  deriving DecidableEq

/-- The six ordered boundaries of a threshold profile
(`HeartRateMonitor.tsx`, the `thresholds` record). -/
structure Thresholds where
  criticalLow : ℚ
  warningLow : ℚ
  normalLow : ℚ
  normalHigh : ℚ
  warningHigh : ℚ
  criticalHigh : ℚ

/-- The maternal profile of `HeartRateMonitor.tsx` (lines 60-67). -/
def maternalThresholds : Thresholds := ⟨40, 50, 60, 100, 120, 140⟩

/-- The fetal profile of `HeartRateMonitor.tsx` (lines 68-75). -/
def fetalThresholds : Thresholds := ⟨100, 110, 120, 160, 170, 180⟩

/-- Instantaneous classification (`HeartRateMonitor.tsx` lines 117-125):
`bpm < criticalLow || bpm > criticalHigh` is critical, else
`bpm < warningLow || bpm > warningHigh` is warning, else normal. -/
def instantaneousStatus (th : Thresholds) (bpm : ℚ) : Status :=
  if bpm < th.criticalLow ∨ th.criticalHigh < bpm then .critical
  else if bpm < th.warningLow ∨ th.warningHigh < bpm then .warning
  else .normal

/-- One entry of `abnormalStatusHistory`: `{ status, timestamp }`. -/
structure HistEntry where
  status : Status
  timestamp : ℤ
  deriving DecidableEq

/-- The pruning loop (`HeartRateMonitor.tsx` lines 132-135):
`while (history.length > 0 && history[0].timestamp < now - 10000) history.shift()`. -/
def pruneHistory (now : ℤ) (h : List HistEntry) : List HistEntry :=
  h.dropWhile (fun e => decide (e.timestamp < now - 10000))

/-- The JS expression `entry?.timestamp || fallback`: the fallback is used both
when no entry was found and when the found timestamp is the falsy number 0. -/
def jsTimestampOr (fallback : ℤ) : Option HistEntry → ℤ
  | some e => if e.timestamp = 0 then fallback else e.timestamp
  | none => fallback

/-- Reference time of the critical branch (`HeartRateMonitor.tsx` line 144):
`history.find(h => h.status !== 'critical')?.timestamp || now - 10000`.
`Array.prototype.find` scans from the front, so this is the oldest retained
entry that is not critical. -/
def criticalRef (now : ℤ) (hist : List HistEntry) : ℤ :=
  jsTimestampOr (now - 10000) (hist.find? (fun e => decide (e.status ≠ .critical)))

/-- Reference time of the warning branch (`HeartRateMonitor.tsx` line 153):
`history.find(h => h.status === 'normal')?.timestamp || now - 10000`. -/
def warningRef (now : ℤ) (hist : List HistEntry) : ℤ :=
  jsTimestampOr (now - 10000) (hist.find? (fun e => decide (e.status = .normal)))

/-- One classifier update (`HeartRateMonitor.tsx` lines 117-163): append the
instantaneous entry, prune, then debounce (critical needs 5000 ms since the
reference, warning needs 3000 ms). Returns the new history and the emitted
status. -/
def classifierStep (th : Thresholds) (hist : List HistEntry) (bpm : ℚ) (now : ℤ) :
    List HistEntry × Status :=
  let inst := instantaneousStatus th bpm
  let hist1 := pruneHistory now (hist ++ [⟨inst, now⟩])
  match inst with
  | .critical =>
    if 5000 ≤ now - criticalRef now hist1 then (hist1, .critical) else (hist1, .warning)
  | .warning =>
    if 3000 ≤ now - warningRef now hist1 then (hist1, .warning) else (hist1, .normal)
  | .normal => (hist1, .normal)

/-- Run a sequence of `(rate, now)` updates from a given history; collect the
emitted statuses and the final history. -/
def classifierRunAux (th : Thresholds) (hist : List HistEntry) :
    List (ℚ × ℤ) → List Status × List HistEntry
  | [] => ([], hist)
  | (bpm, now) :: rest =>
    let p := classifierStep th hist bpm now
    let q := classifierRunAux th p.1 rest
    (p.2 :: q.1, q.2)

/-- The statuses emitted by a freshly started classifier on a list of updates. -/
def classifierRun (th : Thresholds) (updates : List (ℚ × ℤ)) : List Status :=
  (classifierRunAux th [] updates).1

/-- The history retained by a freshly started classifier after a list of updates. -/
def historyRun (th : Thresholds) (updates : List (ℚ × ℤ)) : List HistEntry :=
  (classifierRunAux th [] updates).2

/-- C6: for every rate and every threshold profile the instantaneous
classification is Critical iff the rate is below `criticalLow` or above
`criticalHigh`; otherwise Warning iff below `warningLow` or above
`warningHigh`; otherwise Normal — and under the fetal profile both 110 BPM
(the `warningLow` boundary itself) and 120 BPM (= `normalLow`) classify as
Normal. -/
theorem instantaneous_classification_spec (th : Thresholds) (r : ℚ) :
    (instantaneousStatus th r = .critical ↔ (r < th.criticalLow ∨ th.criticalHigh < r)) ∧
    (instantaneousStatus th r = .warning ↔
      (¬(r < th.criticalLow ∨ th.criticalHigh < r) ∧
        (r < th.warningLow ∨ th.warningHigh < r))) ∧
    (instantaneousStatus th r = .normal ↔
      (¬(r < th.criticalLow ∨ th.criticalHigh < r) ∧
        ¬(r < th.warningLow ∨ th.warningHigh < r))) ∧
    instantaneousStatus fetalThresholds 110 = .normal ∧
    instantaneousStatus fetalThresholds fetalThresholds.normalLow = .normal := by
  refine ⟨?_, ?_, ?_, by decide, by decide⟩ <;>
    · unfold instantaneousStatus
      split_ifs <;> simp_all

/-- The claim's reference time, following the specification's words: the most
recent history entry that is not critical (the history is ordered oldest
first, so scan it from the back), or the window start when none is retained.
Stated only for comparison with `criticalRef`, which the source computes. -/
def specMostRecentNonCriticalRef (now : ℤ) (hist : List HistEntry) : ℤ :=
  match hist.reverse.find? (fun e => decide (e.status ≠ .critical)) with
  | some e => e.timestamp
  | none => now - 10000

/-- A fetal run in which a normal reading occurs 1000 ms before the final
critical reading: (rate, time) pairs at one update per second. -/
def c1Updates : List (ℚ × ℤ) :=
  [(135, 100000), (185, 101000), (185, 102000), (185, 103000), (135, 104000), (185, 105000)]

/-- C1: the source's critical branch measures the sustain duration from the
oldest retained non-critical entry (`Array.prototype.find` scans from the
front), not from the most recent one.  On `c1Updates` the final update emits
Critical (the oldest non-critical entry is 5000 ms old), although the most
recent non-critical entry — the claim's reference — is only 1000 ms old,
which would require Warning. -/
theorem critical_sustain_uses_oldest_entry :
    classifierRun fetalThresholds c1Updates =
      [.normal, .warning, .warning, .warning, .normal, .critical] ∧
    specMostRecentNonCriticalRef 105000 (historyRun fetalThresholds c1Updates) = 104000 ∧
    (105000 : ℤ) - 104000 < 5000 := by decide

/-- The no-false-alarm scenario of the specification: rates
[135, 135, 185, 185, 135, 135, …] at 1 Hz over 20 seconds. -/
def c2Updates : List (ℚ × ℤ) :=
  (List.range 20).map (fun k =>
    (if k % 4 = 2 ∨ k % 4 = 3 then 185 else 135, 100000 + 1000 * (k : ℤ)))

/-- C2 counterexample: on the oscillating scenario the classifier does not
stay Normal on every update. -/
theorem no_false_alarm_scenario_cex :
    ¬ (∀ s ∈ classifierRun fetalThresholds c2Updates, s = Status.normal) := by decide

/-- C2 amended: the oscillating scenario yields Normal on the normal-rate
updates, Warning during the first critical episode, and — because the sustain
duration is measured from the oldest retained non-critical entry — Critical
during every later critical episode. -/
theorem no_false_alarm_scenario_run :
    classifierRun fetalThresholds c2Updates =
      [.normal, .normal, .warning, .warning, .normal, .normal, .critical, .critical,
       .normal, .normal, .critical, .critical, .normal, .normal, .critical, .critical,
       .normal, .normal, .critical, .critical] := by decide

/-- The claim-as-stated temporal property: every emitted Critical is preceded
(somewhere earlier in the run) by an emitted Warning. -/
def critPrecededByWarning (l : List Status) : Prop :=
  ∀ i < l.length, l.getD i .normal = .critical → .warning ∈ l.take i

/-- C3 counterexample: a freshly started fetal classifier that receives a
single critical reading emits Critical on that very first update — the status
jumps from the initial Normal directly to Critical, with no Warning ever
emitted (the history holds no non-critical entry, so the reference falls back
to the window start 10000 ms ago and the 5000 ms test passes at once). -/
theorem no_direct_normal_to_critical_cex :
    ¬ critPrecededByWarning (classifierRun fetalThresholds [(185, 100000)]) := by
  unfold critPrecededByWarning
  decide

/-- C3 amended: Critical is only ever emitted on an update whose instantaneous
classification is Critical and on which at least 5000 ms have elapsed since
the reference entry (the oldest retained non-critical entry, or the window
start when none is retained); a direct Normal-to-Critical jump remains
possible. -/
theorem critical_requires_sustained (th : Thresholds) (hist : List HistEntry) (bpm : ℚ)
    (now : ℤ) (h : (classifierStep th hist bpm now).2 = .critical) :
    instantaneousStatus th bpm = .critical ∧
    5000 ≤ now - criticalRef now
      (pruneHistory now (hist ++ [⟨instantaneousStatus th bpm, now⟩])) := by
  unfold classifierStep at h
  cases hi : instantaneousStatus th bpm <;> rw [hi] at h <;> dsimp only at h
  · exact absurd h (by simp)
  · split at h <;> simp_all
  · split at h <;> simp_all

/-- Witness for `critical_requires_sustained` at a concrete update. -/
theorem critical_requires_sustained_witness :
    instantaneousStatus fetalThresholds 185 = .critical ∧
    5000 ≤ (100000 : ℤ) - criticalRef 100000
      (pruneHistory 100000 ([] ++ [⟨instantaneousStatus fetalThresholds 185, 100000⟩])) :=
  critical_requires_sustained fetalThresholds [] 185 100000 (by decide)

/-- The first component of a classifier update is always the pushed-and-pruned
history, whichever status branch is taken. -/
theorem classifierStep_fst (th : Thresholds) (hist : List HistEntry) (bpm : ℚ) (now : ℤ) :
    (classifierStep th hist bpm now).1 =
      pruneHistory now (hist ++ [⟨instantaneousStatus th bpm, now⟩]) := by
  unfold classifierStep
  cases instantaneousStatus th bpm <;> dsimp only <;> first
    | rfl
    | (split <;> rfl)

/-- In a timestamp-sorted history, every entry that survives the pruning scan
(`dropWhile (timestamp < c)`) has timestamp at least `c`. -/
theorem dropWhile_lt_bound (c : ℤ) :
    ∀ l : List HistEntry, l.Pairwise (fun a b => a.timestamp ≤ b.timestamp) →
      ∀ e ∈ l.dropWhile (fun e => decide (e.timestamp < c)), c ≤ e.timestamp := by
  intro l
  induction l with
  | nil => intro _ e he; simp [List.dropWhile] at he
  | cons x xs ih =>
    intro hp e he
    rw [List.dropWhile_cons] at he
    split at he
    · exact ih (List.pairwise_cons.mp hp).2 e he
    · rename_i hx
      have hcx : c ≤ x.timestamp := by
        by_contra hlt
        exact hx (by simpa using Int.lt_of_not_ge hlt)
      rcases List.mem_cons.mp he with rfl | he'
      · exact hcx
      · exact le_trans hcx ((List.pairwise_cons.mp hp).1 e he')

/-- The Classification History invariant at an update time `now`: every
retained entry lies within the last 10000 ms (and not in the future), and the
entries are in non-decreasing timestamp order. -/
def histInv (now : ℤ) (h : List HistEntry) : Prop :=
  (∀ e ∈ h, now - 10000 ≤ e.timestamp ∧ e.timestamp ≤ now) ∧
  h.Pairwise (fun a b => a.timestamp ≤ b.timestamp)

/-- C9: every classifier update preserves the history invariant, re-established
at the update's own `now` — entries older than the 10000 ms retention window
are removed on that same update, the surviving entries all lie within the
window, and they stay in non-decreasing timestamp order (given non-decreasing
update timestamps `prev ≤ now`). -/
theorem history_retention_invariant (th : Thresholds) (hist : List HistEntry) (bpm : ℚ)
    (prev now : ℤ) (hmono : prev ≤ now) (hinv : histInv prev hist) :
    histInv now (classifierStep th hist bpm now).1 := by
  obtain ⟨hb, hs⟩ := hinv
  rw [classifierStep_fst]
  have hs1 : (hist ++ [(⟨instantaneousStatus th bpm, now⟩ : HistEntry)]).Pairwise
      (fun a b => a.timestamp ≤ b.timestamp) := by
    refine List.pairwise_append.mpr ⟨hs, List.pairwise_singleton _ _, ?_⟩
    intro a ha b hb'
    rcases List.mem_singleton.mp hb' with rfl
    exact le_trans (hb a ha).2 hmono
  constructor
  · intro e he
    refine ⟨dropWhile_lt_bound (now - 10000) _ hs1 e he, ?_⟩
    have hmem : e ∈ hist ++ [(⟨instantaneousStatus th bpm, now⟩ : HistEntry)] :=
      (List.dropWhile_sublist _).subset he
    rcases List.mem_append.mp hmem with h' | h'
    · exact le_trans (hb e h').2 hmono
    · rcases List.mem_singleton.mp h' with rfl
      exact le_refl _
  · exact List.Pairwise.sublist (List.dropWhile_sublist _) hs1

/-- Witness for `history_retention_invariant` at a concrete update. -/
theorem history_retention_invariant_witness :
    histInv 100000 (classifierStep fetalThresholds [⟨.normal, 99000⟩] 135 100000).1 :=
  history_retention_invariant fetalThresholds [⟨.normal, 99000⟩] 135 99000 100000
    (by decide) (by refine ⟨?_, ?_⟩ <;> decide)

/-! ## Rate estimator (`calculateBPM` of the data-storage utility)

Peak detection scans indices 10 … length-11; a point is kept when it exceeds
half the window maximum, exceeds both immediate neighbours, and the JS slice
`signal.slice(i-10, i+10)` (indices i-10 … i+9) holds no larger value. -/

/-- `Math.max(...signal)` on the nonempty windows the estimator works with. -/
def listMax : List ℚ → ℚ
  | [] => 0
  | x :: xs => xs.foldl max x

/-- The peak scan of `calculateBPM` (and, identically, of
`HeartRateMonitor.tsx` lines 87-102): the loop runs `i` from 10 while
`i < length - 10`, pushing `i` when the conditions hold. -/
def findPeaks (signal : List ℚ) : List ℕ :=
  let threshold := listMax signal * 0.5
  (List.range' 10 (signal.length - 20)).filter (fun i =>
    decide (threshold < signal.getD i 0) &&
    decide (signal.getD (i - 1) 0 < signal.getD i 0) &&
    decide (signal.getD (i + 1) 0 < signal.getD i 0) &&
    (List.range 20).all (fun idx =>
      idx == 10 || decide (signal.getD (i - 10 + idx) 0 ≤ signal.getD i 0)))

/-- `calculateBPM` (data-storage utility, lines 81-119): below 100 samples or
2 peaks the sentinel 0 is returned; consecutive peak differences are converted
to seconds and kept only strictly inside 0.2 … 2.0 s; with no surviving
interval the sentinel 0 is returned, else 60 over the mean interval, rounded
(JS `Math.round` is `round` on ℚ: floor of x + 1/2). -/
def calculateBPM (signal : List ℚ) (samplingRate : ℚ) : ℤ :=
  if signal.length < 100 then 0
  else
    let peaks := findPeaks signal
    if peaks.length < 2 then 0
    else
      let intervals := (peaks.zip peaks.tail).filterMap (fun p =>
        let interval := ((p.2 : ℚ) - (p.1 : ℚ)) / samplingRate
        if 0.2 < interval ∧ interval < 2 then some interval else none)
      if intervals.length = 0 then 0
      else round (60 / (intervals.sum / (intervals.length : ℚ)))

/-- The consecutive peak-index differences converted to seconds, in the
specification's vocabulary. -/
def intervalSeconds (signal : List ℚ) (samplingRate : ℚ) : List ℚ :=
  ((findPeaks signal).zip (findPeaks signal).tail).map
    (fun p => ((p.2 : ℚ) - (p.1 : ℚ)) / samplingRate)

/-- The intervals surviving the noise filter: strictly between 0.2 and 2.0 s. -/
def survivingIntervals (signal : List ℚ) (samplingRate : ℚ) : List ℚ :=
  (intervalSeconds signal samplingRate).filter (fun t => decide (0.2 < t ∧ t < 2))

/-- Fusing a map with a predicate test inside `filterMap` equals mapping then
filtering. -/
theorem filterMap_if_eq_filter_map {α : Type} (P : ℚ → Prop) [DecidablePred P] (f : α → ℚ) :
    ∀ l : List α, (l.filterMap fun x => if P (f x) then some (f x) else none) =
      (l.map f).filter (fun y => decide (P y)) := by
  intro l
  induction l with
  | nil => rfl
  | cons x xs ih =>
    rw [List.filterMap_cons, List.map_cons, List.filter_cons]
    by_cases h : P (f x) <;> simp [h, ih]

/-- The interval list `calculateBPM` builds is `survivingIntervals`. -/
theorem intervals_eq_survivingIntervals (signal : List ℚ) (rate : ℚ) :
    (((findPeaks signal).zip (findPeaks signal).tail).filterMap fun p =>
        let interval := ((p.2 : ℚ) - (p.1 : ℚ)) / rate
        if 0.2 < interval ∧ interval < 2 then some interval else none) =
      survivingIntervals signal rate := by
  unfold survivingIntervals intervalSeconds
  exact filterMap_if_eq_filter_map (fun t => 0.2 < t ∧ t < 2)
    (fun p : ℕ × ℕ => ((p.2 : ℚ) - (p.1 : ℚ)) / rate) _

/-- C7: with enough samples, at least two peaks and a nonempty list of
surviving intervals, the estimate is 60 divided by the mean of exactly the
surviving intervals (then rounded for presentation), and every converted
interval failing the strict 0.2 … 2.0 s bound is discarded from the average. -/
theorem calculateBPM_spec (signal : List ℚ) (rate : ℚ)
    (hlen : 100 ≤ signal.length) (hpk : 2 ≤ (findPeaks signal).length)
    (hsur : survivingIntervals signal rate ≠ []) :
    calculateBPM signal rate =
      round (60 / ((survivingIntervals signal rate).sum /
        ((survivingIntervals signal rate).length : ℚ))) ∧
    ∀ t ∈ intervalSeconds signal rate, ¬ ((0.2 : ℚ) < t ∧ t < 2) →
      t ∉ survivingIntervals signal rate := by
  constructor
  · unfold calculateBPM
    rw [if_neg (by omega)]
    dsimp only
    rw [if_neg (by omega), intervals_eq_survivingIntervals]
    rw [if_neg (by simpa [List.length_eq_zero] using hsur)]
  · intro t _ hout hmem
    exact hout (by simpa using (List.mem_filter.mp hmem).2)

/-- A 100-sample window with spikes of height 10 at indices 20 and 80. -/
def spikeSignal : List ℚ := ((List.replicate 100 (0 : ℚ)).set 20 10).set 80 10

/-- Witness for `calculateBPM_spec` on the concrete two-spike window. -/
theorem calculateBPM_spec_witness :
    calculateBPM spikeSignal 250 =
      round (60 / ((survivingIntervals spikeSignal 250).sum /
        ((survivingIntervals spikeSignal 250).length : ℚ))) ∧
    ∀ t ∈ intervalSeconds spikeSignal 250, ¬ ((0.2 : ℚ) < t ∧ t < 2) →
      t ∉ survivingIntervals spikeSignal 250 :=
  calculateBPM_spec spikeSignal 250 (by decide) (by with_unfolding_all decide)
    (by with_unfolding_all decide)

/-- C4 counterexample: on a 50-sample all-zero window — fewer than the 100
samples required — `calculateBPM` reports the numeric value 0, not a result of
a distinct type. -/
theorem insufficient_data_reports_zero :
    calculateBPM (List.replicate 50 (0 : ℚ)) 250 = 0 ∧
    (List.replicate 50 (0 : ℚ)).length < 100 :=
  ⟨by with_unfolding_all decide, by decide⟩

/-- A lower bound on a list sum from a strict elementwise lower bound. -/
theorem lt_sum_of_forall_lt (a : ℚ) :
    ∀ l : List ℚ, l ≠ [] → (∀ x ∈ l, a < x) → a * l.length < l.sum := by
  intro l
  induction l with
  | nil => simp
  | cons x xs ih =>
    intro _ hall
    rcases eq_or_ne xs [] with rfl | hne
    · simpa using hall x (by simp)
    · have h1 := ih hne (fun y hy => hall y (List.mem_cons_of_mem _ hy))
      have h2 := hall x (List.mem_cons_self _ _)
      rw [List.sum_cons, List.length_cons]
      push_cast
      nlinarith

/-- An upper bound on a list sum from a strict elementwise upper bound. -/
theorem sum_lt_of_forall_lt (b : ℚ) :
    ∀ l : List ℚ, l ≠ [] → (∀ x ∈ l, x < b) → l.sum < b * l.length := by
  intro l
  induction l with
  | nil => simp
  | cons x xs ih =>
    intro _ hall
    rcases eq_or_ne xs [] with rfl | hne
    · simpa using hall x (by simp)
    · have h1 := ih hne (fun y hy => hall y (List.mem_cons_of_mem _ hy))
      have h2 := hall x (List.mem_cons_self _ _)
      rw [List.sum_cons, List.length_cons]
      push_cast
      nlinarith

/-- C4 amended: insufficient data (a short window, or no surviving interval —
which covers fewer than 2 peaks) yields the sentinel value 0; the sentinel
stays distinguishable from every genuine estimate because any nonzero result
is at least 30 BPM (every surviving interval lies strictly inside
0.2 … 2.0 s, so the rounded 60/mean lies strictly inside 30 … 300). -/
theorem calculateBPM_sentinel (signal : List ℚ) (rate : ℚ) :
    (signal.length < 100 → calculateBPM signal rate = 0) ∧
    (survivingIntervals signal rate = [] → calculateBPM signal rate = 0) ∧
    (calculateBPM signal rate ≠ 0 → 30 ≤ calculateBPM signal rate) := by
  refine ⟨?_, ?_, ?_⟩
  · intro h
    unfold calculateBPM
    rw [if_pos h]
  · intro h
    unfold calculateBPM
    by_cases hl : signal.length < 100
    · rw [if_pos hl]
    · rw [if_neg hl]
      dsimp only
      by_cases hp : (findPeaks signal).length < 2
      · rw [if_pos hp]
      · rw [if_neg hp, intervals_eq_survivingIntervals, h]
        simp
  · intro hne
    unfold calculateBPM at hne ⊢
    by_cases hl : signal.length < 100
    · rw [if_pos hl] at hne
      exact absurd rfl hne
    · rw [if_neg hl] at hne ⊢
      dsimp only at hne ⊢
      by_cases hp : (findPeaks signal).length < 2
      · rw [if_pos hp] at hne
        exact absurd rfl hne
      · rw [if_neg hp, intervals_eq_survivingIntervals] at hne ⊢
        by_cases hz : (survivingIntervals signal rate).length = 0
        · rw [if_pos hz] at hne
          exact absurd rfl hne
        · rw [if_neg hz] at hne ⊢
          have hSne : survivingIntervals signal rate ≠ [] := by
            simpa [List.length_eq_zero] using hz
          have hmem : ∀ x ∈ survivingIntervals signal rate, (0.2 : ℚ) < x ∧ x < 2 := by
            intro x hx
            unfold survivingIntervals at hx
            simpa using (List.mem_filter.mp hx).2
          have hn : (0 : ℚ) < ((survivingIntervals signal rate).length : ℚ) := by
            exact_mod_cast Nat.pos_of_ne_zero hz
          have h1 : (0.2 : ℚ) * ((survivingIntervals signal rate).length : ℚ) <
              (survivingIntervals signal rate).sum :=
            lt_sum_of_forall_lt _ _ hSne (fun x hx => (hmem x hx).1)
          have h2 : (survivingIntervals signal rate).sum <
              2 * ((survivingIntervals signal rate).length : ℚ) :=
            sum_lt_of_forall_lt _ _ hSne (fun x hx => (hmem x hx).2)
          have havg_pos : (0 : ℚ) <
              (survivingIntervals signal rate).sum /
                ((survivingIntervals signal rate).length : ℚ) := by
            apply div_pos _ hn
            nlinarith
          have h30 : (30 : ℚ) < 60 /
              ((survivingIntervals signal rate).sum /
                ((survivingIntervals signal rate).length : ℚ)) := by
            rw [lt_div_iff₀ havg_pos]
            have havg2 : (survivingIntervals signal rate).sum /
                ((survivingIntervals signal rate).length : ℚ) < 2 :=
              (div_lt_iff₀ hn).mpr (by linarith)
            nlinarith
          rw [round_eq]
          exact Int.le_floor.mpr (by push_cast; linarith)

/-- Witness for `calculateBPM_sentinel`: the short-window branch returns 0 and
the two-spike window yields a nonzero estimate of at least 30 BPM. -/
theorem calculateBPM_sentinel_witness :
    calculateBPM (List.replicate 50 (0 : ℚ)) 250 = 0 ∧
    30 ≤ calculateBPM spikeSignal 250 :=
  ⟨(calculateBPM_sentinel (List.replicate 50 0) 250).1 (by decide),
   (calculateBPM_sentinel spikeSignal 250).2.2 (by with_unfolding_all decide)⟩

/-- The claim's peak criterion: above half the window maximum and a local
maximum over the full symmetric neighbourhood i-10 … i+10, with the 10-sample
margin at each edge. -/
def specPeak (signal : List ℚ) (i : ℕ) : Prop :=
  10 ≤ i ∧ i + 10 < signal.length ∧
  listMax signal * 0.5 < signal.getD i 0 ∧
  ∀ j < signal.length, i - 10 ≤ j → j ≤ i + 10 → j ≠ i →
    signal.getD j 0 ≤ signal.getD i 0

/-- A 21-sample window whose value at index 20 (= i + 10 for i = 10) exceeds
the candidate value at index 10. -/
def c8Window : List ℚ := ((List.replicate 21 (0 : ℚ)).set 10 10).set 20 12

/-- C8 counterexample: the JS slice `signal.slice(i-10, i+10)` stops at
i + 9, so index 10 of `c8Window` is reported as a peak although the sample at
i + 10 is larger — the neighbourhood the code checks is not the claimed
symmetric ±10 window. -/
theorem peak_neighborhood_cex :
    10 ∈ findPeaks c8Window ∧ ¬ specPeak c8Window 10 := by
  constructor
  · with_unfolding_all decide
  · unfold specPeak
    with_unfolding_all decide

/-- C8 amended: `i` is reported as a peak iff it lies in the scan range (a
10-sample margin at each edge), exceeds half the window maximum, strictly
exceeds both immediate neighbours, and no sample in the asymmetric
neighbourhood i-10 … i+9 exceeds it (the sample at i+10 is not examined). -/
theorem findPeaks_mem (signal : List ℚ) (i : ℕ) :
    i ∈ findPeaks signal ↔
      10 ≤ i ∧ i + 10 < signal.length ∧
      listMax signal * 0.5 < signal.getD i 0 ∧
      signal.getD (i - 1) 0 < signal.getD i 0 ∧
      signal.getD (i + 1) 0 < signal.getD i 0 ∧
      ∀ j, i - 10 ≤ j → j < i + 10 → j ≠ i →
        signal.getD j 0 ≤ signal.getD i 0 := by
  unfold findPeaks
  rw [List.mem_filter]
  simp only [List.mem_range'_1, Bool.and_eq_true, decide_eq_true_eq, List.all_eq_true,
    List.mem_range, Bool.or_eq_true, beq_iff_eq]
  constructor
  · rintro ⟨⟨h10, hlt⟩, ⟨⟨hthr, hm1⟩, hp1⟩, hall⟩
    refine ⟨h10, by omega, hthr, hm1, hp1, ?_⟩
    intro j hj1 hj2 hj3
    rcases hall (j - (i - 10)) (by omega) with h | h
    · omega
    · have hx : i - 10 + (j - (i - 10)) = j := by omega
      rwa [hx] at h
  · rintro ⟨h10, hlen, hthr, hm1, hp1, hnb⟩
    refine ⟨⟨h10, by omega⟩, ⟨⟨hthr, hm1⟩, hp1⟩, ?_⟩
    intro x hx20
    by_cases hx10 : x = 10
    · exact Or.inl hx10
    · exact Or.inr (hnb (i - 10 + x) (by omega) (by omega) (by omega))

/-! ## Filter chain (`SignalProcessor` of `signalNormalization.ts`)

Each recursive stage keeps its five coefficients (fixed at construction) and
four delay-line values; `reset()` zeroes the delay lines and empties the
5-sample median buffer.  The verification is parametric in the coefficient
values, which the source computes once from the cutoff/sample-rate pair. -/

/-- Coefficients and delay-line state of one biquad stage
(`NotchFilterState` / `LowpassFilterState` / `HighpassFilterState`). -/
structure FilterState where
  b0 : ℚ
  b1 : ℚ
  b2 : ℚ
  a1 : ℚ
  a2 : ℚ
  x1 : ℚ
  x2 : ℚ
  y1 : ℚ
  y2 : ℚ

/-- The biquad update shared verbatim by `applyNotchFilter`,
`applyLowpassFilter` and `applyHighpassFilter`:
`y = b0*x + b1*x1 + b2*x2 - a1*y1 - a2*y2`, then the delay lines shift. -/
def applyBiquad (x : ℚ) (s : FilterState) : ℚ × FilterState :=
  let y := s.b0 * x + s.b1 * s.x1 + s.b2 * s.x2 - s.a1 * s.y1 - s.a2 * s.y2
  (y, { s with x2 := s.x1, x1 := x, y2 := s.y1, y1 := y })

def applyNotchFilter : ℚ → FilterState → ℚ × FilterState := applyBiquad

def applyLowpassFilter : ℚ → FilterState → ℚ × FilterState := applyBiquad

def applyHighpassFilter : ℚ → FilterState → ℚ × FilterState := applyBiquad

/-- `applyMedianFilter` (lines 234-251): push the sample, drop the front when
the buffer exceeds 5, return the sample unchanged while the buffer is short,
else the middle element of the ascending sort of the 5 retained samples. -/
def applyMedianFilter (sample : ℚ) (buffer : List ℚ) : ℚ × List ℚ :=
  let b1 := buffer ++ [sample]
  let b2 := if 5 < b1.length then b1.tail else b1
  if b2.length < 5 then (sample, b2)
  else ((b2.insertionSort (· ≤ ·)).getD 2 0, b2)

/-- The three recursive stages, in cascade order. -/
structure RecursiveStages where
  notch : FilterState
  lowpass : FilterState
  highpass : FilterState

/-- The first three stages of `processSample`: notch, then low-pass, then
high-pass. -/
def recursiveStep (x : ℚ) (t : RecursiveStages) : ℚ × RecursiveStages :=
  let p1 := applyNotchFilter x t.notch
  let p2 := applyLowpassFilter p1.1 t.lowpass
  let p3 := applyHighpassFilter p2.1 t.highpass
  (p3.1, ⟨p1.2, p2.2, p3.2⟩)

/-- The persistent state of one `SignalProcessor`. -/
structure SignalProcessorState where
  stages : RecursiveStages
  buffer : List ℚ

/-- `processSample` (lines 81-95): the four-stage cascade. -/
def processSample (x : ℚ) (s : SignalProcessorState) : ℚ × SignalProcessorState :=
  let p3 := recursiveStep x s.stages
  let p4 := applyMedianFilter p3.1 s.buffer
  (p4.1, ⟨p3.2, p4.2⟩)

/-- Zero the delay lines of one stage, keeping its coefficients. -/
def zeroDelay (f : FilterState) : FilterState :=
  { f with x1 := 0, x2 := 0, y1 := 0, y2 := 0 }

/-- `reset()` (lines 256-277): empty the median buffer and zero every
delay-line value. -/
def resetStages (s : SignalProcessorState) : RecursiveStages :=
  ⟨zeroDelay s.stages.notch, zeroDelay s.stages.lowpass, zeroDelay s.stages.highpass⟩

def resetState (s : SignalProcessorState) : SignalProcessorState :=
  ⟨resetStages s, []⟩

/-- Feed a list of samples through the full chain, collecting the outputs. -/
def processRun (s : SignalProcessorState) : List ℚ → List ℚ
  | [] => []
  | x :: xs =>
    let p := processSample x s
    p.1 :: processRun p.2 xs

/-- Feed a list of samples through the three recursive stages only. -/
def stage3Run (t : RecursiveStages) : List ℚ → List ℚ
  | [] => []
  | x :: xs =>
    let p := recursiveStep x t
    p.1 :: stage3Run p.2 xs

/-- Iterate the median stage alone over a list of stage-3 outputs. -/
def medianRun (buffer : List ℚ) : List ℚ → List ℚ
  | [] => []
  | y :: ys =>
    let p := applyMedianFilter y buffer
    p.1 :: medianRun p.2 ys

/-- The last `n` elements of a list. -/
def lastN (n : ℕ) (l : List ℚ) : List ℚ := l.drop (l.length - n)

theorem lastN_of_le (n : ℕ) (l : List ℚ) (h : l.length ≤ n) : lastN n l = l := by
  unfold lastN
  rw [Nat.sub_eq_zero_of_le h, List.drop_zero]

theorem lastN_cons (n : ℕ) (x : ℚ) (l : List ℚ) (h : n ≤ l.length) :
    lastN n (x :: l) = lastN n l := by
  unfold lastN
  have h1 : (x :: l).length - n = (l.length - n) + 1 := by
    rw [List.length_cons]; omega
  rw [h1, List.drop_succ_cons]

theorem lastN_length (n : ℕ) (l : List ℚ) : (lastN n l).length = min n l.length := by
  unfold lastN
  rw [List.length_drop]
  omega

/-- Only the last `n` elements of the prefix matter for the last `n` of an
appended list. -/
theorem lastN_append (n : ℕ) (a b : List ℚ) :
    lastN n (lastN n a ++ b) = lastN n (a ++ b) := by
  induction a with
  | nil => rw [lastN_of_le n [] (by simp)]
  | cons x a ih =>
    by_cases h : (x :: a).length ≤ n
    · rw [lastN_of_le _ _ h]
    · push_neg at h
      rw [lastN_cons n x a (by simp at h; omega), ih, List.cons_append,
        lastN_cons n x (a ++ b) (by simp at h ⊢; omega)]

/-- Both branches of the median filter return the same new buffer: the last 5
of the old buffer with the sample appended. -/
theorem medianFilter_snd (sample : ℚ) (buf : List ℚ) (h : buf.length ≤ 5) :
    (applyMedianFilter sample buf).2 = lastN 5 (buf ++ [sample]) := by
  unfold applyMedianFilter
  dsimp only
  rw [apply_ite Prod.snd]
  dsimp only
  rw [ite_self]
  by_cases h6 : 5 < (buf ++ [sample]).length
  · rw [if_pos h6]
    have h1 : (buf ++ [sample]).length = 6 := by
      rw [List.length_append, List.length_singleton]
      rw [List.length_append, List.length_singleton] at h6
      omega
    unfold lastN
    rw [h1]
    rw [show (6 : ℕ) - 5 = 1 from rfl, List.drop_one]
  · rw [if_neg h6, lastN_of_le _ _ (by omega)]

/-- The median filter's output, phrased through its new buffer. -/
theorem medianFilter_fst_eq (sample : ℚ) (buf : List ℚ) :
    (applyMedianFilter sample buf).1 =
      if (applyMedianFilter sample buf).2.length < 5 then sample
      else ((applyMedianFilter sample buf).2.insertionSort (· ≤ ·)).getD 2 0 := by
  unfold applyMedianFilter
  dsimp only
  rw [apply_ite Prod.fst, apply_ite Prod.snd]
  dsimp only
  rw [ite_self]

/-- While the post-push buffer is shorter than 5 the median stage passes its
input through unchanged. -/
theorem medianFilter_fst_small (sample : ℚ) (buf : List ℚ) (h : buf.length < 4) :
    (applyMedianFilter sample buf).1 = sample := by
  rw [medianFilter_fst_eq, medianFilter_snd _ _ (by omega), if_pos]
  rw [lastN_length, List.length_append, List.length_singleton]
  omega

/-- With 4 or 5 retained samples the median stage returns the middle element
of the ascending sort of the last five values. -/
theorem medianFilter_fst_full (sample : ℚ) (buf : List ℚ) (h4 : 4 ≤ buf.length)
    (h5 : buf.length ≤ 5) :
    (applyMedianFilter sample buf).1 =
      ((lastN 5 (buf ++ [sample])).insertionSort (· ≤ ·)).getD 2 0 := by
  rw [medianFilter_fst_eq, medianFilter_snd _ _ h5, if_neg]
  rw [lastN_length, List.length_append, List.length_singleton]
  omega

/-- The full chain factors into the recursive stages followed by the median
stage: the biquad state evolution never depends on the median buffer. -/
theorem processRun_eq_medianRun (xs : List ℚ) :
    ∀ (t : RecursiveStages) (buf : List ℚ),
      processRun ⟨t, buf⟩ xs = medianRun buf (stage3Run t xs) := by
  induction xs with
  | nil => intro t buf; rfl
  | cons x xs ih =>
    intro t buf
    simp only [processRun, processSample, stage3Run, medianRun]
    rw [ih]

theorem stage3Run_length (xs : List ℚ) : ∀ t : RecursiveStages,
    (stage3Run t xs).length = xs.length := by
  induction xs with
  | nil => intro t; rfl
  | cons x xs ih =>
    intro t
    simp only [stage3Run, List.length_cons, ih]

/-- A list element as `take (k+1)` sees it. -/
theorem take_succ_getD (k : ℕ) (l : List ℚ) (hk : k < l.length) :
    l.take (k + 1) = l.take k ++ [l.getD k 0] := by
  rw [List.take_succ, List.getD_eq_getElem l 0 hk, List.getElem?_eq_getElem hk]
  rfl

/-- The `k`-th output of the iterated median stage is one filter step on the
last five previously processed values. -/
theorem medianRun_getD (k : ℕ) :
    ∀ (ys buf : List ℚ), k < ys.length → buf.length ≤ 5 →
      (medianRun buf ys).getD k 0 =
        (applyMedianFilter (ys.getD k 0) (lastN 5 (buf ++ ys.take k))).1 := by
  induction k with
  | zero =>
    intro ys buf hk hbuf
    cases ys with
    | nil => simp at hk
    | cons y ys =>
      simp only [medianRun, List.getD_cons_zero, List.take_zero, List.append_nil]
      rw [lastN_of_le _ _ hbuf]
  | succ k ih =>
    intro ys buf hk hbuf
    cases ys with
    | nil => simp at hk
    | cons y ys =>
      simp only [medianRun, List.getD_cons_succ]
      rw [ih ys (applyMedianFilter y buf).2 (by simpa using hk)
        (by rw [medianFilter_snd _ _ hbuf, lastN_length]; omega)]
      rw [medianFilter_snd _ _ hbuf, lastN_append]
      congr 2
      rw [List.append_assoc, List.singleton_append]
      rfl

/-- C10: after a reset, each of the first 4 outputs of `processSample` is the
third-stage (high-pass) output unchanged, and from the 5th call on the output
is the middle element of the sorted buffer of the 5 most recent stage-3
outputs. -/
theorem medianStage_warmup (s : SignalProcessorState) (inputs : List ℚ) (k : ℕ)
    (hk : k < inputs.length) :
    (k < 4 → (processRun (resetState s) inputs).getD k 0 =
      (stage3Run (resetStages s) inputs).getD k 0) ∧
    (4 ≤ k → (processRun (resetState s) inputs).getD k 0 =
      ((lastN 5 ((stage3Run (resetStages s) inputs).take (k + 1))).insertionSort
        (· ≤ ·)).getD 2 0) := by
  have hys : k < (stage3Run (resetStages s) inputs).length := by
    rw [stage3Run_length]; exact hk
  have hrun : (processRun (resetState s) inputs).getD k 0 =
      (applyMedianFilter ((stage3Run (resetStages s) inputs).getD k 0)
        (lastN 5 ((stage3Run (resetStages s) inputs).take k))).1 := by
    rw [show resetState s = (⟨resetStages s, []⟩ : SignalProcessorState) from rfl,
      processRun_eq_medianRun, medianRun_getD k _ [] hys (by simp)]
    rw [List.nil_append]
  constructor
  · intro h4
    rw [hrun]
    apply medianFilter_fst_small
    rw [lastN_length, List.length_take]
    omega
  · intro h4
    rw [hrun]
    rw [medianFilter_fst_full _ _ ?_ ?_]
    · rw [lastN_append, ← take_succ_getD k _ hys]
    · rw [lastN_length, List.length_take]
      omega
    · rw [lastN_length, List.length_take]
      omega

/-- A concrete chain state: plausible coefficient values and dirty delay
lines (which the reset clears). -/
def sampleChainState : SignalProcessorState :=
  ⟨⟨⟨1, -3/2, 1, -7/5, 49/50, 4, 4, 4, 4⟩,
    ⟨1/10, 1/5, 1/10, -11/10, 2/5, 4, 4, 4, 4⟩,
    ⟨9/10, -9/5, 9/10, -11/10, 2/5, 4, 4, 4, 4⟩⟩, [3, 3, 3]⟩

def chainInputs : List ℚ := [1, 5, 2, 4, 3, 6]

/-- Witness for `medianStage_warmup` at the 6th sample of a concrete run. -/
theorem medianStage_warmup_witness :
    ((5 : ℕ) < 4 → (processRun (resetState sampleChainState) chainInputs).getD 5 0 =
      (stage3Run (resetStages sampleChainState) chainInputs).getD 5 0) ∧
    (4 ≤ (5 : ℕ) → (processRun (resetState sampleChainState) chainInputs).getD 5 0 =
      ((lastN 5 ((stage3Run (resetStages sampleChainState) chainInputs).take (5 + 1))).insertionSort
        (· ≤ ·)).getD 2 0) :=
  medianStage_warmup sampleChainState chainInputs 5 (by decide)

/-! ## Non-finite samples through the chain

JS numbers include non-finite values. The chain's arithmetic is re-modelled
over an extended value type with an absorbing non-finite element: IEEE-754
arithmetic returns NaN whenever an operand is NaN, which is the case the
claim's guard would have to handle.  The source (`processSample` and the
three apply functions) contains no finiteness test whatsoever. -/

/-- A JS number as the chain sees it: a finite value or NaN. -/
inductive FloatV where
  | fin (q : ℚ)
  | nan
  deriving DecidableEq

/-- IEEE addition restricted to this carrier: NaN absorbs. -/
def FloatV.add : FloatV → FloatV → FloatV
  | .fin a, .fin b => .fin (a + b)
  | _, _ => .nan

def FloatV.sub : FloatV → FloatV → FloatV
  | .fin a, .fin b => .fin (a - b)
  | _, _ => .nan

def FloatV.mul : FloatV → FloatV → FloatV
  | .fin a, .fin b => .fin (a * b)
  | _, _ => .nan

/-- The sort order the JS comparator `(a, b) => a - b` induces; a NaN result
is treated as 0 (equal) per the ECMAScript sort specification. -/
def leFB (a b : FloatV) : Bool :=
  match a, b with
  | .fin x, .fin y => decide (x ≤ y)
  | _, _ => true

/-- One biquad stage over extended values. -/
structure FilterStateF where
  b0 : FloatV
  b1 : FloatV
  b2 : FloatV
  a1 : FloatV
  a2 : FloatV
  x1 : FloatV
  x2 : FloatV
  y1 : FloatV
  y2 : FloatV

/-- The biquad update, association as written in the source:
`((((b0*x + b1*x1) + b2*x2) - a1*y1) - a2*y2)`. -/
def applyBiquadF (x : FloatV) (s : FilterStateF) : FloatV × FilterStateF :=
  let y := ((((s.b0.mul x).add (s.b1.mul s.x1)).add (s.b2.mul s.x2)).sub
    (s.a1.mul s.y1)).sub (s.a2.mul s.y2)
  (y, { s with x2 := s.x1, x1 := x, y2 := s.y1, y1 := y })

/-- The median stage over extended values. -/
def applyMedianFilterF (sample : FloatV) (buffer : List FloatV) : FloatV × List FloatV :=
  let b1 := buffer ++ [sample]
  let b2 := if 5 < b1.length then b1.tail else b1
  if b2.length < 5 then (sample, b2)
  else ((b2.insertionSort (fun a b => leFB a b = true)).getD 2 (.fin 0), b2)

structure RecursiveStagesF where
  notch : FilterStateF
  lowpass : FilterStateF
  highpass : FilterStateF

def recursiveStepF (x : FloatV) (t : RecursiveStagesF) : FloatV × RecursiveStagesF :=
  let p1 := applyBiquadF x t.notch
  let p2 := applyBiquadF p1.1 t.lowpass
  let p3 := applyBiquadF p2.1 t.highpass
  (p3.1, ⟨p1.2, p2.2, p3.2⟩)

structure SignalProcessorStateF where
  stages : RecursiveStagesF
  buffer : List FloatV

/-- `processSample` over extended values: exactly the source's four-stage
cascade, with no finiteness test anywhere. -/
def processSampleF (x : FloatV) (s : SignalProcessorStateF) : FloatV × SignalProcessorStateF :=
  let p3 := recursiveStepF x s.stages
  let p4 := applyMedianFilterF p3.1 s.buffer
  (p4.1, ⟨p3.2, p4.2⟩)

/-- A freshly reset chain with concrete (arbitrary finite) coefficients. -/
def nanChainState : SignalProcessorStateF :=
  ⟨⟨⟨.fin 1, .fin (-2), .fin 1, .fin (-1), .fin 1, .fin 0, .fin 0, .fin 0, .fin 0⟩,
    ⟨.fin 1, .fin 2, .fin 1, .fin (-1), .fin 1, .fin 0, .fin 0, .fin 0, .fin 0⟩,
    ⟨.fin 1, .fin (-2), .fin 1, .fin (-1), .fin 1, .fin 0, .fin 0, .fin 0, .fin 0⟩⟩, []⟩

/-- C5 counterexample: a NaN input is written into the notch stage's delay
line (both `x1` and `y1` become NaN) and the very next finite input still
produces a NaN output — the call neither passes the value through as a no-op
nor substitutes a neutral value, and processing does not continue normally. -/
theorem nonfinite_corrupts_state :
    (processSampleF .nan nanChainState).2.stages.notch.x1 = FloatV.nan ∧
    (processSampleF .nan nanChainState).2.stages.notch.y1 = FloatV.nan ∧
    (processSampleF (.fin 1) (processSampleF .nan nanChainState).2).1 = FloatV.nan := by
  with_unfolding_all decide

/-- All nine fields of a stage are finite. -/
def FilterStateF.Finite (s : FilterStateF) : Prop :=
  s.b0 ≠ .nan ∧ s.b1 ≠ .nan ∧ s.b2 ≠ .nan ∧ s.a1 ≠ .nan ∧ s.a2 ≠ .nan ∧
  s.x1 ≠ .nan ∧ s.x2 ≠ .nan ∧ s.y1 ≠ .nan ∧ s.y2 ≠ .nan

/-- The whole chain state is finite. -/
def SignalProcessorStateF.Finite (s : SignalProcessorStateF) : Prop :=
  s.stages.notch.Finite ∧ s.stages.lowpass.Finite ∧ s.stages.highpass.Finite ∧
  ∀ v ∈ s.buffer, v ≠ FloatV.nan

theorem FloatV.add_ne_nan {a b : FloatV} (ha : a ≠ .nan) (hb : b ≠ .nan) :
    a.add b ≠ .nan := by
  cases a <;> cases b <;> simp_all [FloatV.add]

theorem FloatV.sub_ne_nan {a b : FloatV} (ha : a ≠ .nan) (hb : b ≠ .nan) :
    a.sub b ≠ .nan := by
  cases a <;> cases b <;> simp_all [FloatV.sub]

theorem FloatV.mul_ne_nan {a b : FloatV} (ha : a ≠ .nan) (hb : b ≠ .nan) :
    a.mul b ≠ .nan := by
  cases a <;> cases b <;> simp_all [FloatV.mul]

theorem applyBiquadF_finite {x : FloatV} {s : FilterStateF} (hx : x ≠ .nan)
    (hs : s.Finite) : (applyBiquadF x s).1 ≠ FloatV.nan ∧ (applyBiquadF x s).2.Finite := by
  obtain ⟨hb0, hb1, hb2, ha1, ha2, hx1, hx2, hy1, hy2⟩ := hs
  have hy : ((((s.b0.mul x).add (s.b1.mul s.x1)).add (s.b2.mul s.x2)).sub
      (s.a1.mul s.y1)).sub (s.a2.mul s.y2) ≠ FloatV.nan :=
    FloatV.sub_ne_nan (FloatV.sub_ne_nan (FloatV.add_ne_nan (FloatV.add_ne_nan
      (FloatV.mul_ne_nan hb0 hx) (FloatV.mul_ne_nan hb1 hx1)) (FloatV.mul_ne_nan hb2 hx2))
      (FloatV.mul_ne_nan ha1 hy1)) (FloatV.mul_ne_nan ha2 hy2)
  exact ⟨hy, hb0, hb1, hb2, ha1, ha2, hx, hx1, hy, hy1⟩

theorem recursiveStepF_finite {x : FloatV} {t : RecursiveStagesF} (hx : x ≠ .nan)
    (h1 : t.notch.Finite) (h2 : t.lowpass.Finite) (h3 : t.highpass.Finite) :
    (recursiveStepF x t).1 ≠ FloatV.nan ∧ (recursiveStepF x t).2.notch.Finite ∧
    (recursiveStepF x t).2.lowpass.Finite ∧ (recursiveStepF x t).2.highpass.Finite := by
  have p1 := applyBiquadF_finite hx h1
  have p2 := applyBiquadF_finite p1.1 h2
  have p3 := applyBiquadF_finite p2.1 h3
  exact ⟨p3.1, p1.2, p2.2, p3.2⟩

/-- The median stage's result, phrased through its new buffer. -/
theorem applyMedianFilterF_fst_eq (x : FloatV) (buf : List FloatV) :
    (applyMedianFilterF x buf).1 =
      if (applyMedianFilterF x buf).2.length < 5 then x
      else ((applyMedianFilterF x buf).2.insertionSort
        (fun a b => leFB a b = true)).getD 2 (.fin 0) := by
  unfold applyMedianFilterF
  dsimp only
  rw [apply_ite Prod.fst, apply_ite Prod.snd]
  dsimp only
  rw [ite_self]

theorem applyMedianFilterF_snd_subset (x : FloatV) (buf : List FloatV) :
    ∀ v ∈ (applyMedianFilterF x buf).2, v ∈ buf ++ [x] := by
  intro v hv
  unfold applyMedianFilterF at hv
  dsimp only at hv
  rw [apply_ite Prod.snd] at hv
  dsimp only at hv
  rw [ite_self] at hv
  split at hv
  · exact List.mem_of_mem_tail hv
  · exact hv

theorem getD_ne_nan {l : List FloatV} (hl : ∀ v ∈ l, v ≠ FloatV.nan) :
    l.getD 2 (.fin 0) ≠ FloatV.nan := by
  by_cases h2 : 2 < l.length
  · rw [List.getD_eq_getElem l _ h2]
    exact hl _ (List.getElem_mem h2)
  · rw [List.getD_eq_default l _ (by omega)]
    simp

theorem applyMedianFilterF_finite {x : FloatV} {buf : List FloatV} (hx : x ≠ .nan)
    (hb : ∀ v ∈ buf, v ≠ FloatV.nan) :
    (applyMedianFilterF x buf).1 ≠ FloatV.nan ∧
    ∀ v ∈ (applyMedianFilterF x buf).2, v ≠ FloatV.nan := by
  have hball : ∀ v ∈ buf ++ [x], v ≠ FloatV.nan := by
    intro v hv
    rcases List.mem_append.mp hv with h | h
    · exact hb v h
    · rcases List.mem_singleton.mp h with rfl
      exact hx
  have hsnd : ∀ v ∈ (applyMedianFilterF x buf).2, v ≠ FloatV.nan :=
    fun v hv => hball v (applyMedianFilterF_snd_subset x buf v hv)
  refine ⟨?_, hsnd⟩
  rw [applyMedianFilterF_fst_eq]
  split
  · exact hx
  · apply getD_ne_nan
    intro v hv
    exact hsnd v ((List.perm_insertionSort _ _).mem_iff.mp hv)

/-- C5 amended: the chain has no finiteness guard — a NaN input is written
into the delay lines and propagates to subsequent outputs
(`nonfinite_corrupts_state`); what does hold is that finite inputs on a
finite state always yield a finite output and a finite state, so only an
upstream non-finite value can ever corrupt the chain. -/
theorem processSampleF_preserves_finite (s : SignalProcessorStateF) (q : ℚ)
    (hs : s.Finite) :
    (processSampleF (.fin q) s).1 ≠ FloatV.nan ∧ (processSampleF (.fin q) s).2.Finite := by
  obtain ⟨hn, hl, hh, hb⟩ := hs
  have p3 := recursiveStepF_finite (x := .fin q) (by simp) hn hl hh
  have p4 := applyMedianFilterF_finite p3.1 hb
  exact ⟨p4.1, p3.2.1, p3.2.2.1, p3.2.2.2, p4.2⟩

/-- Witness for `processSampleF_preserves_finite` on the concrete chain. -/
theorem processSampleF_preserves_finite_witness :
    (processSampleF (.fin 1) nanChainState).1 ≠ FloatV.nan ∧
    (processSampleF (.fin 1) nanChainState).2.Finite :=
  processSampleF_preserves_finite nanChainState 1
    (by unfold SignalProcessorStateF.Finite FilterStateF.Finite; decide)

end FetalMonitor
